import Mathlib

/-!
# kingston-waste-bot: the chat page script `frontend/app.js`

A shallow embedding of the script and the properties of its specification.

Strings are lists of characters.  Every string operation of the script
(`trim`, `replaceAll` with a one-character pattern, `replace` with the two
regular expressions of `addMessage`) looks at one character at a time and
only ever singles out characters of the Basic Multilingual Plane, so the
difference between UTF-16 code units and characters does not show.
-/

namespace KingstonWaste

/-- A JavaScript string. -/
abbrev Str := List Char

/-! ## `escapeHtml` (app.js 153-160) -/

/-- The method `str.replaceAll(c, rep)` for a pattern of one character. -/
def replaceAll (c : Char) (rep : Str) (str : Str) : Str :=
  str.flatMap (fun x => if x = c then rep else [x])

/-- The function `escapeHtml`: five `replaceAll` passes, `&` first. -/
def escapeHtml (str : Str) : Str :=
  replaceAll '\'' "&#039;".toList
    (replaceAll '"' "&quot;".toList
      (replaceAll '>' "&gt;".toList
        (replaceAll '<' "&lt;".toList
          (replaceAll '&' "&amp;".toList str))))

/-! ## `String.prototype.trim` -/

/-- The characters `trim` strips: ECMAScript WhiteSpace and LineTerminator. -/
def isTrimChar (c : Char) : Bool :=
  let n := c.toNat
  n = 0x09 || n = 0x0A || n = 0x0B || n = 0x0C || n = 0x0D || n = 0x20 ||
  n = 0xA0 || n = 0x1680 || (0x2000 ≤ n && n ≤ 0x200A) ||
  n = 0x2028 || n = 0x2029 || n = 0x202F || n = 0x205F || n = 0x3000 || n = 0xFEFF

/-- The method `trim`: strip leading and trailing whitespace. -/
def trim (s : Str) : Str :=
  ((s.dropWhile isTrimChar).reverse.dropWhile isTrimChar).reverse

/-! ## The formatter of `addMessage` (app.js 142-144) -/

/-- The characters `.` does not match: the ECMAScript LineTerminator set. -/
def isLineTerminator (c : Char) : Bool :=
  c = '\n' || c = '\r' || c.toNat = 0x2028 || c.toNat = 0x2029

/-- After an opening `**`: the lazy `(.*?)` followed by `\*\*`.  Returns the
captured text and what follows the closing `**`, or `none` when the match
attempt fails (a line terminator or the end comes before a closing `**`). -/
def findClose : Str → Option (Str × Str)
  | [] => none
  | c :: rest =>
    if c = '*' ∧ rest.head? = some '*' then some ([], rest.tail)
    else if isLineTerminator c then none
    else match findClose rest with
      | some (cap, after) => some (c :: cap, after)
      | none => none

/-- The scan of `.replace(/\*\*(.*?)\*\*/g, "<strong>$1</strong>")`: at each
position try a match; on success emit the replacement and go on after the
match, otherwise copy one character and move one position on. -/
def boldAux : Nat → Str → Str
  | 0, s => s
  | _ + 1, [] => []
  | fuel + 1, c :: rest =>
    if c = '*' ∧ rest.head? = some '*' then
      match findClose rest.tail with
      | some (cap, after) =>
        "<strong>".toList ++ cap ++ "</strong>".toList ++ boldAux fuel after
      | none => c :: boldAux fuel rest
    else c :: boldAux fuel rest

/-- First pass of the formatter.  Every step consumes a character, so the
length of the text is enough fuel. -/
def replaceBold (s : Str) : Str := boldAux s.length s

/-- Second pass of the formatter, `.replace(/\n/g, "<br>")`. -/
def replaceNewlines (s : Str) : Str := replaceAll '\n' "<br>".toList s

/-- The value `formattedText` of `addMessage`. -/
def formatText (text : Str) : Str := replaceNewlines (replaceBold text)

/-! ## Decoding entities (what a browser shows for escaped text) -/

/-- The five entities `escapeHtml` produces, each with the character it stands for. -/
def entityTable : List (Str × Char) :=
  [("&amp;".toList, '&'), ("&lt;".toList, '<'), ("&gt;".toList, '>'),
   ("&quot;".toList, '"'), ("&#039;".toList, '\'')]

/-- Decoding, left to right: an entity at the current position is replaced by
its character, any other character is copied. -/
def decodeAux : Nat → Str → Str
  | 0, s => s
  | _ + 1, [] => []
  | fuel + 1, c :: rest =>
    match entityTable.find? (fun e => e.1.isPrefixOf (c :: rest)) with
    | some e => e.2 :: decodeAux fuel ((c :: rest).drop e.1.length)
    | none => c :: decodeAux fuel rest

/-- Decoding of the five entities in a text.  Every step consumes a
character, so the length of the text is enough fuel. -/
def decodeEntities (s : Str) : Str := decodeAux s.length s

/-! ## The localization table (app.js 3-60) -/

/-- An object literal of display strings: its properties in source order. -/
abbrev Bundle := List (Str × Str)

/-- One property `key: "text"` of an object literal. -/
def kv (key text : String) : Str × Str := (key.toList, text.toList)

/-- The bundle `I18N.en`. -/
def I18N.en : Bundle :=
  [kv "title" "Kingston Waste Collection Assistant",
   kv "subtitle" "Ask me anything about your waste, recycling, and organics pickup!",
   kv "changeLang" "Change language",
   kv "intro" "Hi! I can help you with waste collection in Kingston. Try asking:",
   kv "ex1" "\"When is my next garbage pickup on Princess Street?\"",
   kv "ex2" "\"Where do batteries go?\"",
   kv "ex3" "\"Can I recycle a pizza box?\"",
   kv "tip" "Tip: For this demo, I recognize a limited set of streets (try: Princess, Gardiners, Chelsea, Napier, Evergreen).",
   kv "placeholder" "Ask about your waste collection...",
   kv "send" "Send",
   kv "disclaimer" "Demo for Kingston Civic Hackathon • Data may not reflect current schedules",
   kv "thinking" "Thinking..."]

/-- The bundle `I18N.fr`. -/
def I18N.fr : Bundle :=
  [kv "title" " Assistant de collecte des déchets – Kingston",
   kv "subtitle" "Posez une question sur les ordures, le recyclage et les matières organiques.",
   kv "changeLang" "Changer de langue",
   kv "intro" "Salut! Je peux vous aider avec la collecte des déchets à Kingston. Essayez :",
   kv "ex1" "\"Quand est ma prochaine collecte sur Princess Street?\"",
   kv "ex2" "\"Où vont les piles?\"",
   kv "ex3" "\"Puis-je recycler une boîte à pizza?\"",
   kv "tip" "Astuce : cette démo reconnaît un nombre limité de rues (ex. Princess, Gardiners, Chelsea, Napier, Evergreen).",
   kv "placeholder" "Posez une question…",
   kv "send" "Envoyer",
   kv "disclaimer" "Démo • Les données peuvent ne pas être à jour",
   kv "thinking" "Réflexion..."]

/-- The bundle `I18N.es`. -/
def I18N.es : Bundle :=
  [kv "title" " Asistente de recolección de residuos – Kingston",
   kv "subtitle" "Pregunta sobre basura, reciclaje y orgánicos.",
   kv "changeLang" "Cambiar idioma",
   kv "intro" "¡Hola! Puedo ayudarte con la recolección de residuos en Kingston. Prueba:",
   kv "ex1" "\"¿Cuándo es mi próxima recolección en Princess Street?\"",
   kv "ex2" "\"¿Dónde van las baterías?\"",
   kv "ex3" "\"¿Puedo reciclar una caja de pizza?\"",
   kv "tip" "Consejo: esta demo reconoce un conjunto limitado de calles (p. ej., Princess, Gardiners, Chelsea, Napier, Evergreen).",
   kv "placeholder" "Escribe tu pregunta…",
   kv "send" "Enviar",
   kv "disclaimer" "Demo • Los datos pueden no estar actualizados",
   kv "thinking" "Pensando..."]

/-- The bundle `I18N.zh`. -/
def I18N.zh : Bundle :=
  [kv "title" "Kingston 垃圾回收助手",
   kv "subtitle" "可查询垃圾、回收与厨余（绿桶）收集信息。",
   kv "changeLang" "更改语言",
   kv "intro" "你好！我可以帮助你查询 Kingston 的垃圾收集。试试：",
   kv "ex1" "“Princess Street 的下次收集是什么时候？”",
   kv "ex2" "“电池应该丢到哪里？”",
   kv "ex3" "“披萨盒可以回收吗？”",
   kv "tip" "提示：此演示只识别少量街道（如 Princess、Gardiners、Chelsea、Napier、Evergreen）。",
   kv "placeholder" "输入你的问题…",
   kv "send" "发送",
   kv "disclaimer" "演示版 • 数据可能不是最新",
   kv "thinking" "思考中…"]

/-- The object `I18N`: its four own properties. -/
def I18N : List (Str × Bundle) :=
  [("en".toList, I18N.en), ("fr".toList, I18N.fr), ("es".toList, I18N.es), ("zh".toList, I18N.zh)]

/-- The properties every object literal inherits from `Object.prototype`
(ECMAScript, Annex B included).  Each holds a function, `__proto__` holds
`Object.prototype` itself: all are truthy. -/
def objectPrototypeKeys : List Str :=
  ["constructor".toList, "__defineGetter__".toList, "__defineSetter__".toList,
   "hasOwnProperty".toList, "__lookupGetter__".toList, "__lookupSetter__".toList,
   "isPrototypeOf".toList, "propertyIsEnumerable".toList, "toString".toList,
   "valueOf".toList, "__proto__".toList, "toLocaleString".toList]

/-- What a property read on `I18N` can give besides `undefined`. -/
inductive Looked
  /-- One of the four bundles. -/
  | bundle (b : Bundle)
  /-- The member of `Object.prototype` of that name. -/
  | inherited (key : Str)
deriving DecidableEq

/-- The read `I18N[lang]`: own properties first, then the prototype chain;
`none` stands for `undefined`. -/
def I18N_get (lang : Str) : Option Looked :=
  match I18N.lookup lang with
  | some b => some (Looked.bundle b)
  | none => if lang ∈ objectPrototypeKeys then some (Looked.inherited lang) else none

/-- The value `t` of `applyUiLanguage` and `sendMessage`: `I18N[lang] || I18N.en`.
Every value `I18N_get` finds is an object or a function, hence truthy. -/
def activeBundle (lang : Str) : Looked :=
  match I18N_get lang with
  | some t => t
  | none => Looked.bundle I18N.en

/-! ## JavaScript values -/

/-- The values that reach `addMessage` and `escapeHtml`: `undefined` and
what `JSON.parse` yields.  A number is an integer (of magnitude below 10^21,
where its decimal form is what string conversion gives).  An array or object
is kept only as `shown`, the result of its conversion to a string, `none`
when that conversion throws. -/
inductive JsVal
  | undefined
  | null
  | bool (b : Bool)
  | num (n : Int)
  | str (s : Str)
  | object (shown : Option Str)
deriving DecidableEq

/-- An exception thrown by the script; all of them are `TypeError`s. -/
inductive JsError
  | typeError
deriving DecidableEq

deriving instance DecidableEq for Except

/-- ECMAScript `ToBoolean`. -/
def truthy : JsVal → Bool
  | .undefined => false
  | .null => false
  | .bool b => b
  | .num n => n ≠ 0
  | .str s => s ≠ []
  | .object _ => true

/-- ECMAScript `ToString`, as a template literal applies it. -/
def toStringJs : JsVal → Except JsError Str
  | .undefined => .ok "undefined".toList
  | .null => .ok "null".toList
  | .bool b => .ok (if b then "true".toList else "false".toList)
  | .num n => .ok (if n < 0 then '-' :: Nat.toDigits 10 n.natAbs else Nat.toDigits 10 n.natAbs)
  | .str s => .ok s
  | .object (some shown) => .ok shown
  | .object none => .error .typeError

/-- The read `t.thinking`: a bundle has the property, a member of
`Object.prototype` (a function, or `Object.prototype` itself) has not. -/
def thinkingOf : Looked → JsVal
  | .bundle b =>
    match b.lookup "thinking".toList with
    | some text => .str text
    | none => .undefined
  | .inherited _ => .undefined

/-- The call `escapeHtml(v)`: only a string has the method `replaceAll`. -/
def escapeHtmlJs : JsVal → Except JsError Str
  | .str s => .ok (escapeHtml s)
  | _ => .error .typeError

/-! ## The message log (app.js 132-151) -/

/-- A child `div` of `#chatContainer`. -/
structure Entry where
  id : Str
  className : Str
  innerHTML : Str
deriving DecidableEq

/-- The identifier `"msg-" + Date.now() + "-" + Math.floor(Math.random() * 10000)`;
`now` is the clock in milliseconds, `rnd` the floored random draw. -/
def newId (now : Nat) (rnd : Fin 10000) : Str :=
  "msg-".toList ++ Nat.toDigits 10 now ++ "-".toList ++ Nat.toDigits 10 rnd.val

/-- The function `addMessage(text, type, opts)` on the children of
`#chatContainer`: the new log and the identifier returned, or the exception
thrown before anything is appended.  With `opts.isHtml` the text goes through
the template literal only; without it `text.replace` is called, which only a
string has.  (The scroll position is layout and is left out.) -/
def addMessage (log : List Entry) (now : Nat) (rnd : Fin 10000)
    (text : JsVal) (type : Str) (isHtml : Bool) : Except JsError (List Entry × Str) :=
  let id := newId now rnd
  let inner : Except JsError Str :=
    if isHtml then toStringJs text
    else match text with
      | .str s => .ok (formatText s)
      | _ => .error .typeError
  match inner with
  | .ok html =>
    .ok (log ++ [{ id := id, className := "message ".toList ++ type,
                   innerHTML := "<p>".toList ++ html ++ "</p>".toList }], id)
  | .error e => .error e

/-- The statement `document.getElementById(id).remove()` on the log: the
first entry in document order bearing `id` is detached; `none` when there is
none, where the call throws on `null`.  (Message identifiers start with
`msg-`; the page's own markup is taken to have no such identifier.) -/
def removeById (id : Str) : List Entry → Option (List Entry)
  | [] => none
  | e :: es =>
    if e.id = id then some es
    else match removeById id es with
      | some es' => some (e :: es')
      | none => none

/-! ## The chat client (app.js 62-64, 96-130) -/

/-- The body of a `POST /chat` request, `{ message, lang }`. -/
structure ChatRequest where
  message : Str
  lang : Str
deriving DecidableEq

/-- The state `sendMessage` reads and writes, on a page that has its
`#userInput` and `#chatContainer`. -/
structure Page where
  /-- The children of `#chatContainer`, in document order. -/
  log : List Entry
  /-- The value of `#userInput`. -/
  inputValue : Str
  /-- The entry of `localStorage` under `kw_lang`, `none` when unset. -/
  kw_lang : Option Str
  /-- The requests issued so far. -/
  requests : List ChatRequest
  /-- The entries handed to `container.appendChild` so far, in order; an
  entry stays in this record when it is removed from the log. -/
  appended : List Entry
deriving DecidableEq

/-- The function `getLang`: `localStorage.getItem("kw_lang") || "en"`. -/
def getLang (p : Page) : Str :=
  match p.kw_lang with
  | some lang => if lang = [] then "en".toList else lang
  | none => "en".toList

/-- The value `data` of `sendMessage`, the parsed body. -/
inductive Body
  /-- The body `null`: every property read on it throws. -/
  | null
  /-- Any other JSON value, with what reading its properties `ok`, `error` and
  `reply` gives (`undefined` for a property it has not, as in a number, a
  string or an array). -/
  | value (ok error reply : JsVal)
deriving DecidableEq

/-- How the request ends. -/
inductive FetchOutcome
  /-- The promise of `fetch` rejects. -/
  | networkError
  /-- A response arrives: `res.ok`, and the parsed body, `none` when
  `res.json()` rejects because the body is not JSON. -/
  | response (ok : Bool) (body : Option Body)
deriving DecidableEq

/-- How the promise returned by `sendMessage` settles. -/
inductive Settled
  | resolved
  | rejected
deriving DecidableEq

/-- A finished call of `sendMessage`. -/
structure Run where
  page : Page
  settled : Settled
deriving DecidableEq

/-- The text of the `catch` block. -/
def apology : Str := "Sorry — I couldn't reach the server. Is the backend running?".toList

/-- The fallback of the error branch. -/
def genericError : Str := "Something went wrong.".toList

/-- The `catch` block (app.js 125-129), entered with page `p`; `tick` is the
clock and random draw its `addMessage` sees. -/
def catchBlock (p : Page) (loadingId : Str) (tick : Nat × Fin 10000) : Run :=
  match removeById loadingId p.log with
  | none => { page := p, settled := .rejected }
  | some log =>
    match addMessage log tick.1 tick.2 (.str apology) "assistant".toList false with
    | .ok (log', _) =>
      { page := { p with log := log', appended := p.appended ++ log'.drop log.length },
        settled := .resolved }
    | .error _ => { page := { p with log := log }, settled := .rejected }

/-- The statements after `await res.json()` (app.js 117-124), the loading
entry already removed.  An exception leads to the `catch` block; a call of
`addMessage` that throws has read the clock and drawn its random number. -/
def afterRemoval (p : Page) (loadingId : Str) (ticks : Nat → Nat × Fin 10000)
    (resOk : Bool) (data : Body) : Run :=
  match data with
  | .null => catchBlock p loadingId (ticks 2)
  | .value ok error reply =>
    if !resOk || !truthy ok then
      match escapeHtmlJs (if truthy error then error else .str genericError) with
      | .error _ => catchBlock p loadingId (ticks 2)
      | .ok text =>
        match addMessage p.log (ticks 2).1 (ticks 2).2 (.str text) "assistant".toList false with
        | .ok (log', _) =>
          { page := { p with log := log', appended := p.appended ++ log'.drop p.log.length },
            settled := .resolved }
        | .error _ => catchBlock p loadingId (ticks 3)
    else
      match addMessage p.log (ticks 2).1 (ticks 2).2 reply "assistant".toList true with
      | .ok (log', _) =>
        { page := { p with log := log', appended := p.appended ++ log'.drop p.log.length },
          settled := .resolved }
      | .error _ => catchBlock p loadingId (ticks 3)

/-- The function `sendMessage`, run alone on page `p` (no other handler
touches the page while it waits).  `ticks k` is the clock and the random
draw that the call number `k` of `addMessage` sees; `outcome` is how the
request ends. -/
def sendMessage (p : Page) (ticks : Nat → Nat × Fin 10000) (outcome : FetchOutcome) : Run :=
  let message := trim p.inputValue
  if message = [] then { page := p, settled := .resolved }
  else
    let lang := getLang p
    let t := activeBundle lang
    match addMessage p.log (ticks 0).1 (ticks 0).2 (.str (escapeHtml message)) "user".toList false with
    | .error _ => { page := p, settled := .rejected }
    | .ok (log1, _) =>
      let p1 : Page :=
        { p with log := log1, inputValue := [],
                 appended := p.appended ++ log1.drop p.log.length }
      match addMessage log1 (ticks 1).1 (ticks 1).2 (thinkingOf t) "loading".toList false with
      | .error _ => { page := p1, settled := .rejected }
      | .ok (log2, loadingId) =>
        let p2 : Page :=
          { p1 with log := log2, appended := p1.appended ++ log2.drop log1.length,
                    requests := p1.requests ++ [{ message := message, lang := lang }] }
        match outcome with
        | .networkError => catchBlock p2 loadingId (ticks 2)
        | .response _ none => catchBlock p2 loadingId (ticks 2)
        | .response resOk (some data) =>
          match removeById loadingId p2.log with
          | none => catchBlock p2 loadingId (ticks 2)
          | some log3 => afterRemoval { p2 with log := log3 } loadingId ticks resOk data

/-! ## Notions the properties are stated with -/

/-- What `escapeHtml` makes of one character. -/
def escapeChar (c : Char) : Str :=
  if c = '&' then "&amp;".toList
  else if c = '<' then "&lt;".toList
  else if c = '>' then "&gt;".toList
  else if c = '"' then "&quot;".toList
  else if c = '\'' then "&#039;".toList
  else [c]

/-- The three tags the formatter of `addMessage` inserts. -/
def markupTags : List Str := ["<strong>".toList, "</strong>".toList, "<br>".toList]

/-- The five entities of `escapeHtml`. -/
def entityNames : List Str := entityTable.map Prod.fst

/-- The twelve property names of a bundle, in source order. -/
def bundleKeys : List Str :=
  ["title".toList, "subtitle".toList, "changeLang".toList, "intro".toList, "ex1".toList,
   "ex2".toList, "ex3".toList, "tip".toList, "placeholder".toList, "send".toList,
   "disclaimer".toList, "thinking".toList]

/-- Markup in which no `<`, `>` or `&` stands on its own: the text is a
sequence of pieces, each one of the three tags, one of the five entities, or
a single character other than `<`, `>` and `&`.  So every `<` and `>` lies in
one of the tags and every `&` starts one of the entities. -/
inductive Harmless : Str → Prop
  | nil : Harmless []
  | char (c : Char) (rest : Str) :
      c ≠ '<' → c ≠ '>' → c ≠ '&' → Harmless rest → Harmless (c :: rest)
  | tag (t rest : Str) : t ∈ markupTags → Harmless rest → Harmless (t ++ rest)
  | entity (e rest : Str) : e ∈ entityNames → Harmless rest → Harmless (e ++ rest)

/-- An over-approximation of the formatter, character by character: every
character of the input is copied, or, when it is `*` or a newline, replaced
by nothing or by one of the three tags. -/
inductive Weave : Str → Str → Prop
  | nil : Weave [] []
  | copy (c : Char) (inp out : Str) : Weave inp out → Weave (c :: inp) (c :: out)
  | sub (c : Char) (t inp out : Str) :
      (c = '*' ∨ c = '\n') → (t = [] ∨ t ∈ markupTags) → Weave inp out →
      Weave (c :: inp) (t ++ out)

/-- The text of the loading entry for a language code whose bundle has the
property `thinking` (the empty text stands in where `t.thinking` is no string
and no loading entry is made). -/
def thinkingText (lang : Str) : Str :=
  match thinkingOf (activeBundle lang) with
  | .str text => text
  | _ => []

/-- The text the error branch of `sendMessage` shows for the value of
`data.error`: a non-empty string itself, the fallback for a falsy value. -/
def shownError : JsVal → Str
  | .str (c :: cs) => c :: cs
  | _ => genericError

/-! ## Facts about `escapeHtml` -/

theorem replaceAll_append (c : Char) (rep a b : Str) :
    replaceAll c rep (a ++ b) = replaceAll c rep a ++ replaceAll c rep b := by
  simp [replaceAll, List.flatMap_append]

theorem escapeHtml_append (a b : Str) :
    escapeHtml (a ++ b) = escapeHtml a ++ escapeHtml b := by
  simp [escapeHtml, replaceAll_append]

theorem escapeHtml_singleton (c : Char) : escapeHtml [c] = escapeChar c := by
  by_cases h1 : c = '&'
  · subst h1; decide
  by_cases h2 : c = '<'
  · subst h2; decide
  by_cases h3 : c = '>'
  · subst h3; decide
  by_cases h4 : c = '"'
  · subst h4; decide
  by_cases h5 : c = '\''
  · subst h5; decide
  simp [escapeHtml, escapeChar, replaceAll, h1, h2, h3, h4, h5]

theorem escapeHtml_nil : escapeHtml [] = [] := rfl

theorem escapeHtml_cons (c : Char) (s : Str) :
    escapeHtml (c :: s) = escapeChar c ++ escapeHtml s := by
  have h : c :: s = [c] ++ s := rfl
  rw [h, escapeHtml_append, escapeHtml_singleton]

theorem decodeAux_escapeHtml (s : Str) :
    ∀ fuel, (escapeHtml s).length ≤ fuel → decodeAux fuel (escapeHtml s) = s := by
  induction s with
  | nil => intro fuel _; cases fuel <;> rfl
  | cons c s ih =>
    intro fuel hf
    rw [escapeHtml_cons] at hf ⊢
    by_cases h1 : c = '&'
    · subst h1
      obtain ⟨f, rfl⟩ : ∃ f, fuel = f + 1 := ⟨fuel - 1, by simp [escapeChar] at hf; omega⟩
      have := ih f (by simp [escapeChar] at hf; omega)
      simpa [escapeChar, decodeAux, entityTable] using this
    by_cases h2 : c = '<'
    · subst h2
      obtain ⟨f, rfl⟩ : ∃ f, fuel = f + 1 := ⟨fuel - 1, by simp [escapeChar] at hf; omega⟩
      have := ih f (by simp [escapeChar] at hf; omega)
      simpa [escapeChar, decodeAux, entityTable] using this
    by_cases h3 : c = '>'
    · subst h3
      obtain ⟨f, rfl⟩ : ∃ f, fuel = f + 1 := ⟨fuel - 1, by simp [escapeChar] at hf; omega⟩
      have := ih f (by simp [escapeChar] at hf; omega)
      simpa [escapeChar, decodeAux, entityTable] using this
    by_cases h4 : c = '"'
    · subst h4
      obtain ⟨f, rfl⟩ : ∃ f, fuel = f + 1 := ⟨fuel - 1, by simp [escapeChar] at hf; omega⟩
      have := ih f (by simp [escapeChar] at hf; omega)
      simpa [escapeChar, decodeAux, entityTable] using this
    by_cases h5 : c = '\''
    · subst h5
      obtain ⟨f, rfl⟩ : ∃ f, fuel = f + 1 := ⟨fuel - 1, by simp [escapeChar] at hf; omega⟩
      have := ih f (by simp [escapeChar] at hf; omega)
      simpa [escapeChar, decodeAux, entityTable] using this
    · obtain ⟨f, rfl⟩ : ∃ f, fuel = f + 1 := ⟨fuel - 1, by simp [escapeChar, h1, h2, h3, h4, h5] at hf; omega⟩
      have := ih f (by simp [escapeChar, h1, h2, h3, h4, h5] at hf; omega)
      have hne : ('&' == c) = false := by simpa using Ne.symm h1
      simp [escapeChar, h1, h2, h3, h4, h5, decodeAux, entityTable, this, List.find?,
        List.isPrefixOf, hne]

/-- C10: decoding the five entities in `escapeHtml s` gives back `s`, for
every string `s`, and so `escapeHtml` is injective. -/
theorem escapeHtml_lossless :
    (∀ s : Str, decodeEntities (escapeHtml s) = s) ∧ Function.Injective escapeHtml := by
  have h : ∀ s : Str, decodeEntities (escapeHtml s) = s :=
    fun s => decodeAux_escapeHtml s _ (Nat.le_refl _)
  refine ⟨h, fun a b hab => ?_⟩
  rw [← h a, ← h b, hab]

/-! ## Facts about the formatter -/

theorem weave_refl (s : Str) : Weave s s := by
  induction s with
  | nil => exact Weave.nil
  | cons c s ih => exact Weave.copy c s s ih

theorem weave_append {a a' b b' : Str} (ha : Weave a a') (hb : Weave b b') :
    Weave (a ++ b) (a' ++ b') := by
  induction ha with
  | nil => simpa using hb
  | copy c inp out _ ih => exact Weave.copy c _ _ ih
  | sub c t inp out hc ht _ ih =>
    have := Weave.sub c t _ _ hc ht ih
    simpa [List.append_assoc] using this

theorem findClose_spec (s : Str) :
    ∀ cap after, findClose s = some (cap, after) → s = cap ++ '*' :: '*' :: after := by
  induction s with
  | nil => intro cap after h; simp [findClose] at h
  | cons c rest ih =>
    intro cap after h
    unfold findClose at h
    split at h
    · rename_i hc
      obtain ⟨hc1, hc2⟩ := hc
      cases rest with
      | nil => simp at hc2
      | cons d rest' =>
        simp at hc2 h
        obtain ⟨rfl, rfl⟩ := h
        subst hc1 hc2
        rfl
    · split at h
      · simp at h
      · cases hf : findClose rest with
        | none => simp [hf] at h
        | some pr =>
          obtain ⟨cap', after'⟩ := pr
          simp [hf] at h
          obtain ⟨rfl, rfl⟩ := h
          have := ih cap' after' hf
          simp [this]

theorem weave_stars_open (inp out : Str) (h : Weave inp out) :
    Weave ('*' :: '*' :: inp) ("<strong>".toList ++ out) := by
  have h1 := Weave.sub '*' [] inp out (Or.inl rfl) (Or.inl rfl) h
  exact Weave.sub '*' "<strong>".toList _ _ (Or.inl rfl) (Or.inr (by decide)) h1

theorem weave_stars_close (inp out : Str) (h : Weave inp out) :
    Weave ('*' :: '*' :: inp) ("</strong>".toList ++ out) := by
  have h1 := Weave.sub '*' [] inp out (Or.inl rfl) (Or.inl rfl) h
  exact Weave.sub '*' "</strong>".toList _ _ (Or.inl rfl) (Or.inr (by decide)) h1

theorem weave_boldAux : ∀ (fuel : Nat) (s : Str), Weave s (boldAux fuel s) := by
  intro fuel
  induction fuel with
  | zero => intro s; simpa [boldAux] using weave_refl s
  | succ fuel ih =>
    intro s
    cases s with
    | nil => simpa [boldAux] using Weave.nil
    | cons c rest =>
      unfold boldAux
      split
      · rename_i hc
        obtain ⟨hc1, hc2⟩ := hc
        cases rest with
        | nil => simp at hc2
        | cons d rest' =>
          simp at hc2
          subst hc1 hc2
          simp only [List.tail_cons]
          cases hf : findClose rest' with
          | none => exact Weave.copy _ _ _ (ih _)
          | some pr =>
            obtain ⟨cap, after⟩ := pr
            simp only []
            have hs := findClose_spec rest' cap after hf
            have h1 : Weave ('*' :: '*' :: after) ("</strong>".toList ++ boldAux fuel after) :=
              weave_stars_close _ _ (ih after)
            have h2 := weave_append (weave_refl cap) h1
            have h3 := weave_stars_open _ _ h2
            rw [← hs] at h3
            simpa [List.append_assoc] using h3
      · exact Weave.copy _ _ _ (ih _)

/-- The fuel of `replaceBold` is enough: with at least the length of the text
as fuel, the scan does not depend on the fuel (it never stops short). -/
theorem boldAux_fuel : ∀ (f1 f2 : Nat) (s : Str),
    s.length ≤ f1 → s.length ≤ f2 → boldAux f1 s = boldAux f2 s := by
  intro f1
  induction f1 with
  | zero =>
    intro f2 s h1 _
    have : s = [] := List.length_eq_zero.mp (Nat.le_zero.mp h1)
    subst this
    cases f2 <;> rfl
  | succ f1 ih =>
    intro f2 s h1 h2
    cases s with
    | nil => cases f2 <;> rfl
    | cons c rest =>
      obtain ⟨f2, rfl⟩ : ∃ k, f2 = k + 1 := ⟨f2 - 1, by simp at h2; omega⟩
      have hr1 : rest.length ≤ f1 := by simpa using h1
      have hr2 : rest.length ≤ f2 := by simpa using h2
      unfold boldAux
      split
      · cases hf : findClose rest.tail with
        | none => simp only []; rw [ih f2 rest hr1 hr2]
        | some pr =>
          obtain ⟨cap, after⟩ := pr
          simp only []
          have hs := congrArg List.length (findClose_spec _ cap after hf)
          simp at hs
          have ha1 : after.length ≤ f1 := by omega
          have ha2 : after.length ≤ f2 := by omega
          rw [ih f2 after ha1 ha2]
      · rw [ih f2 rest hr1 hr2]

theorem replaceNewlines_cons (c : Char) (s : Str) :
    replaceNewlines (c :: s) = (if c = '\n' then "<br>".toList else [c]) ++ replaceNewlines s := by
  simp [replaceNewlines, replaceAll]

theorem replaceNewlines_tag (t : Str) (ht : t = [] ∨ t ∈ markupTags) :
    replaceNewlines t = t := by
  rcases ht with rfl | ht
  · rfl
  · simp [markupTags] at ht
    rcases ht with rfl | rfl | rfl <;> decide

theorem weave_newlines {inp mid : Str} (h : Weave inp mid) :
    Weave inp (replaceNewlines mid) := by
  induction h with
  | nil => exact Weave.nil
  | copy c inp out _ ih =>
    rw [replaceNewlines_cons]
    by_cases hc : c = '\n'
    · simp only [hc, if_true]
      exact Weave.sub '\n' "<br>".toList _ _ (Or.inr rfl) (Or.inr (by decide)) ih
    · simp only [hc, if_false]
      exact Weave.copy c _ _ ih
  | sub c t inp out hc ht _ ih =>
    have : replaceNewlines (t ++ out) = t ++ replaceNewlines out := by
      rw [replaceNewlines, replaceAll_append]
      exact congrArg (· ++ replaceAll '\n' "<br>".toList out) (replaceNewlines_tag t ht)
    rw [this]
    exact Weave.sub c t _ _ hc ht ih

theorem weave_formatText (s : Str) : Weave s (formatText s) :=
  weave_newlines (weave_boldAux _ s)

theorem weave_nil_inv {out : Str} (h : Weave [] out) : out = [] := by
  cases h; rfl

theorem weave_append_inv (a : Str) :
    ∀ (b out : Str), Weave (a ++ b) out →
      ∃ o1 o2, out = o1 ++ o2 ∧ Weave a o1 ∧ Weave b o2 := by
  induction a with
  | nil => intro b out h; exact ⟨[], out, rfl, Weave.nil, h⟩
  | cons c a ih =>
    intro b out h
    cases h with
    | copy _ _ out' h' =>
      obtain ⟨o1, o2, rfl, h1, h2⟩ := ih b out' h'
      exact ⟨c :: o1, o2, rfl, Weave.copy c _ _ h1, h2⟩
    | sub _ t _ out' hc ht h' =>
      obtain ⟨o1, o2, rfl, h1, h2⟩ := ih b out' h'
      exact ⟨t ++ o1, o2, by simp, Weave.sub c t _ _ hc ht h1, h2⟩

theorem weave_plain (e : Str) :
    ∀ out, (∀ c ∈ e, c ≠ '*' ∧ c ≠ '\n') → Weave e out → out = e := by
  induction e with
  | nil => intro out _ h; exact weave_nil_inv h
  | cons c e ih =>
    intro out hp h
    cases h with
    | copy _ _ out' h' =>
      rw [ih out' (fun x hx => hp x (List.mem_cons_of_mem _ hx)) h']
    | sub _ t _ out' hc ht h' =>
      have := hp c (List.mem_cons_self _ _)
      rcases hc with hc | hc
      · exact absurd hc this.1
      · exact absurd hc this.2

theorem harmless_of_weave_escapeHtml (s : Str) :
    ∀ out, Weave (escapeHtml s) out → Harmless out := by
  induction s with
  | nil => intro out h; rw [weave_nil_inv h]; exact Harmless.nil
  | cons c s ih =>
    intro out h
    rw [escapeHtml_cons] at h
    obtain ⟨o1, o2, rfl, h1, h2⟩ := weave_append_inv _ _ _ h
    have hr := ih o2 h2
    by_cases c1 : c = '&'
    · have := weave_plain _ o1 (by subst c1; decide) h1
      rw [this]; subst c1
      exact Harmless.entity _ _ (by decide) hr
    by_cases c2 : c = '<'
    · have := weave_plain _ o1 (by subst c2; decide) h1
      rw [this]; subst c2
      exact Harmless.entity _ _ (by decide) hr
    by_cases c3 : c = '>'
    · have := weave_plain _ o1 (by subst c3; decide) h1
      rw [this]; subst c3
      exact Harmless.entity _ _ (by decide) hr
    by_cases c4 : c = '"'
    · have := weave_plain _ o1 (by subst c4; decide) h1
      rw [this]; subst c4
      exact Harmless.entity _ _ (by decide) hr
    by_cases c5 : c = '\''
    · have := weave_plain _ o1 (by subst c5; decide) h1
      rw [this]; subst c5
      exact Harmless.entity _ _ (by decide) hr
    · have he : escapeChar c = [c] := by simp [escapeChar, c1, c2, c3, c4, c5]
      rw [he] at h1
      cases h1 with
      | copy _ _ out' h' =>
        rw [weave_nil_inv h']
        exact Harmless.char c _ c2 c3 c1 hr
      | sub _ t _ out' hc ht h' =>
        rw [weave_nil_inv h']
        rcases ht with rfl | ht
        · simpa using hr
        · simpa using Harmless.tag t _ ht hr

theorem escapeHtml_no_raw (s : Str) :
    ∀ c ∈ escapeHtml s, c ≠ '<' ∧ c ≠ '>' ∧ c ≠ '"' ∧ c ≠ '\'' := by
  induction s with
  | nil => intro c hc; simp [escapeHtml_nil] at hc
  | cons d s ih =>
    intro c hc
    rw [escapeHtml_cons, List.mem_append] at hc
    rcases hc with hc | hc
    · unfold escapeChar at hc
      split at hc
      · revert c; decide
      split at hc
      · revert c; decide
      split at hc
      · revert c; decide
      split at hc
      · revert c; decide
      split at hc
      · revert c; decide
      · simp at hc
        subst hc
        refine ⟨?_, ?_, ?_, ?_⟩ <;> assumption
    · exact ih c hc

theorem piece_heads : ∀ k ∈ markupTags ++ entityNames,
    k ≠ [] ∧ ∀ c ∈ k.tail, c ≠ '<' ∧ c ≠ '&' := by decide

theorem piece_lasts : ∀ k ∈ markupTags ++ entityNames, ∀ c ∈ k.dropLast, c ≠ '>' := by decide

theorem tag_heads : ∀ k ∈ markupTags, k.head? = some '<' ∧ k.getLast? = some '>' := by decide
theorem entity_heads : ∀ k ∈ entityNames, k.head? = some '&' ∧ ∀ c ∈ k, c ≠ '>' := by decide

theorem piece_split_head (k rest pre post : Str) (x : Char) (hk : k ∈ markupTags ++ entityNames)
    (hx : x = '<' ∨ x = '&') (h : k ++ rest = pre ++ x :: post) :
    pre = [] ∨ ∃ pre', pre = k ++ pre' ∧ rest = pre' ++ x :: post := by
  obtain ⟨hne, htl⟩ := piece_heads k hk
  rcases List.append_eq_append_iff.mp h with ⟨a', h1, h2⟩ | ⟨c', h1, h2⟩
  · exact Or.inr ⟨a', h1, h2⟩
  · cases c' with
    | nil =>
      refine Or.inr ⟨[], ?_, ?_⟩
      · simpa using h1.symm
      · simpa using h2.symm
    | cons y c'' =>
      simp only [List.cons_append, List.cons.injEq] at h2
      obtain ⟨rfl, _⟩ := h2
      cases pre with
      | nil => exact Or.inl rfl
      | cons p ps =>
        have hm : x ∈ k.tail := by rw [h1]; simp
        have := htl x hm
        rcases hx with rfl | rfl
        · exact absurd rfl this.1
        · exact absurd rfl this.2

theorem harmless_head (t : Str) (ht : Harmless t) :
    ∀ (pre post : Str) (x : Char), x = '<' ∨ x = '&' → t = pre ++ x :: post →
      ∃ k ∈ markupTags ++ entityNames, k <+: x :: post := by
  induction ht with
  | nil => intro pre post x _ h; simp at h
  | char c rest h1 h2 h3 _ ih =>
    intro pre post x hx h
    cases pre with
    | nil =>
      simp only [List.nil_append, List.cons.injEq] at h
      obtain ⟨rfl, _⟩ := h
      rcases hx with rfl | rfl
      · exact absurd rfl h1
      · exact absurd rfl h3
    | cons p ps =>
      simp only [List.cons_append, List.cons.injEq] at h
      exact ih ps post x hx h.2
  | tag k rest hk _ ih =>
    intro pre post x hx h
    have hk' : k ∈ markupTags ++ entityNames := List.mem_append_left _ hk
    rcases piece_split_head k rest pre post x hk' hx h with rfl | ⟨pre', _, h2⟩
    · exact ⟨k, hk', ⟨rest, by simpa using h⟩⟩
    · exact ih pre' post x hx h2
  | entity k rest hk _ ih =>
    intro pre post x hx h
    have hk' : k ∈ markupTags ++ entityNames := List.mem_append_right _ hk
    rcases piece_split_head k rest pre post x hk' hx h with rfl | ⟨pre', _, h2⟩
    · exact ⟨k, hk', ⟨rest, by simpa using h⟩⟩
    · exact ih pre' post x hx h2

theorem lt_starts_tag (t : Str) (ht : Harmless t) (pre post : Str)
    (h : t = pre ++ '<' :: post) : ∃ k ∈ markupTags, k <+: '<' :: post := by
  obtain ⟨k, hk, hp⟩ := harmless_head t ht pre post '<' (Or.inl rfl) h
  rcases List.mem_append.mp hk with hk | hk
  · exact ⟨k, hk, hp⟩
  · exfalso
    obtain ⟨r, hr⟩ := hp
    have := (entity_heads k hk).1
    cases k with
    | nil => simp at this
    | cons a as =>
      simp at this hr
      rw [this] at hr
      exact absurd hr.1 (by decide)

theorem amp_starts_entity (t : Str) (ht : Harmless t) (pre post : Str)
    (h : t = pre ++ '&' :: post) : ∃ k ∈ entityNames, k <+: '&' :: post := by
  obtain ⟨k, hk, hp⟩ := harmless_head t ht pre post '&' (Or.inr rfl) h
  rcases List.mem_append.mp hk with hk | hk
  · exfalso
    obtain ⟨r, hr⟩ := hp
    have := (tag_heads k hk).1
    cases k with
    | nil => simp at this
    | cons a as =>
      simp at this hr
      rw [this] at hr
      exact absurd hr.1 (by decide)
  · exact ⟨k, hk, hp⟩

theorem gt_ends_tag (t : Str) (ht : Harmless t) :
    ∀ (pre post : Str), t = pre ++ '>' :: post → ∃ k ∈ markupTags, k <:+ pre ++ ['>'] := by
  induction ht with
  | nil => intro pre post h; simp at h
  | char c rest h1 h2 h3 _ ih =>
    intro pre post h
    cases pre with
    | nil =>
      simp only [List.nil_append, List.cons.injEq] at h
      exact absurd h.1 h2
    | cons p ps =>
      simp only [List.cons_append, List.cons.injEq] at h
      obtain ⟨k, hk, s, hs⟩ := ih ps post h.2
      exact ⟨k, hk, p :: s, by simp [hs]⟩
  | tag k rest hk _ ih =>
    intro pre post h
    rcases List.append_eq_append_iff.mp h with ⟨a', h1, h2⟩ | ⟨c', h1, h2⟩
    · obtain ⟨k', hk', s, hs⟩ := ih a' post h2
      exact ⟨k', hk', k ++ s, by rw [h1]; simp [← hs]⟩
    · cases c' with
      | nil =>
        obtain ⟨k', hk', s, hs⟩ := ih [] post (by simpa using h2.symm)
        refine ⟨k', hk', pre ++ s, ?_⟩
        simp at hs ⊢
        rw [hs]
      | cons y c'' =>
        simp only [List.cons_append, List.cons.injEq] at h2
        obtain ⟨rfl, _⟩ := h2
        refine ⟨k, hk, [], ?_⟩
        have hl := piece_lasts k (List.mem_append_left _ hk)
        cases c'' with
        | nil => simp [h1]
        | cons z zs =>
          exfalso
          have : '>' ∈ k.dropLast := by
            rw [h1]
            have e : pre ++ '>' :: z :: zs = (pre ++ ['>']) ++ (z :: zs) := by simp
            rw [e, List.dropLast_append_of_ne_nil _ (by simp)]
            simp
          exact hl _ this rfl
  | entity k rest hk _ ih =>
    intro pre post h
    rcases List.append_eq_append_iff.mp h with ⟨a', h1, h2⟩ | ⟨c', h1, h2⟩
    · obtain ⟨k', hk', s, hs⟩ := ih a' post h2
      exact ⟨k', hk', k ++ s, by rw [h1]; simp [← hs]⟩
    · cases c' with
      | nil =>
        obtain ⟨k', hk', s, hs⟩ := ih [] post (by simpa using h2.symm)
        refine ⟨k', hk', pre ++ s, ?_⟩
        simp at hs ⊢
        rw [hs]
      | cons y c'' =>
        simp only [List.cons_append, List.cons.injEq] at h2
        obtain ⟨rfl, _⟩ := h2
        exfalso
        exact (entity_heads k hk).2 '>' (by rw [h1]; simp) rfl
/-! ## The localization table -/

/-- C9, as stated, fails: it is not the case that every language of `I18N`
maps to a bundle of exactly eleven strings (the English bundle has twelve). -/
theorem bundles_not_eleven :
    ¬ (∀ lang b, I18N.lookup lang = some b → b.length = 11) := by
  intro h
  have := h "en".toList I18N.en (by decide)
  revert this
  decide

/-- C9, amended: `I18N` has exactly the own properties en, fr, es, zh, and
each of the four bundles has exactly the same twelve distinct keys, every one
of them with a non-empty string. -/
theorem bundles_twelve_nonempty :
    I18N.map Prod.fst = ["en".toList, "fr".toList, "es".toList, "zh".toList] ∧
    bundleKeys.length = 12 ∧ bundleKeys.Nodup ∧
    (I18N.all fun lb => lb.2.map Prod.fst == bundleKeys && lb.2.all fun e => e.2 != []) = true := by
  decide

/-- C2, at the failing input: for the language code `constructor`, which is
none of en, fr, es, zh, the lookup `I18N[lang] || I18N.en` gives the inherited
member `Object.prototype.constructor`, not the English bundle, and `t.thinking`
is then `undefined`. -/
theorem activeBundle_constructor :
    "constructor".toList ∉ ["en".toList, "fr".toList, "es".toList, "zh".toList] ∧
    activeBundle "constructor".toList = Looked.inherited "constructor".toList ∧
    activeBundle "constructor".toList ≠ Looked.bundle I18N.en ∧
    thinkingOf (activeBundle "constructor".toList) = JsVal.undefined := by
  decide

/-! ## The message log -/

theorem removeById_append_fresh (id cls html : Str) :
    ∀ log : List Entry, (∀ x ∈ log, x.id ≠ id) →
      removeById id (log ++ [⟨id, cls, html⟩]) = some log := by
  intro log
  induction log with
  | nil => intro _; simp [removeById]
  | cons x xs ih =>
    intro h
    have hx : x.id ≠ id := h x (List.mem_cons_self _ _)
    have := ih (fun y hy => h y (List.mem_cons_of_mem _ hy))
    simp [removeById, hx, this]

/-- With an identifier that no entry of the log bears, appending and then
removing under the returned identifier gives the log back. -/
theorem addMessage_remove_fresh (log : List Entry) (now : Nat) (rnd : Fin 10000)
    (text type : Str) (h : ∀ x ∈ log, x.id ≠ newId now rnd) :
    ∃ log', addMessage log now rnd (.str text) type false = .ok (log', newId now rnd) ∧
      removeById (newId now rnd) log' = some log :=
  ⟨_, rfl, removeById_append_fresh _ _ _ log h⟩

/-- C8, at the failing input: the log holds one entry with identifier
`msg-5-7`; `addMessage` at clock 5 with random draw 7 returns `msg-5-7` again,
and removing the element found under it removes the earlier entry: the log is
left holding the new entry, not as it was. -/
theorem append_remove_collision :
    addMessage [⟨"msg-5-7".toList, "message user".toList, "<p>hi</p>".toList⟩] 5 7
        (.str "Thinking...".toList) "loading".toList false
      = .ok ([⟨"msg-5-7".toList, "message user".toList, "<p>hi</p>".toList⟩,
              ⟨"msg-5-7".toList, "message loading".toList, "<p>Thinking...</p>".toList⟩],
             "msg-5-7".toList) ∧
    removeById "msg-5-7".toList
        [⟨"msg-5-7".toList, "message user".toList, "<p>hi</p>".toList⟩,
         ⟨"msg-5-7".toList, "message loading".toList, "<p>Thinking...</p>".toList⟩]
      = some [⟨"msg-5-7".toList, "message loading".toList, "<p>Thinking...</p>".toList⟩] ∧
    [(⟨"msg-5-7".toList, "message loading".toList, "<p>Thinking...</p>".toList⟩ : Entry)]
      ≠ [⟨"msg-5-7".toList, "message user".toList, "<p>hi</p>".toList⟩] := by
  decide

/-! ## The chat client -/

theorem trim_blank (s : Str) (h : ∀ c ∈ s, isTrimChar c = true) : trim s = [] := by
  have : s.dropWhile isTrimChar = [] := by
    rw [List.dropWhile_eq_nil_iff]
    exact h
  simp [trim, this]

/-- C6: when the value of the input field is empty or made of whitespace
only, `sendMessage` resolves and leaves the whole page as it was: the log,
the value of the input field and the requests issued. -/
theorem sendMessage_blank_noop (p : Page) (ticks : Nat → Nat × Fin 10000)
    (outcome : FetchOutcome) (h : ∀ c ∈ p.inputValue, isTrimChar c = true) :
    sendMessage p ticks outcome = { page := p, settled := .resolved } := by
  simp [sendMessage, trim_blank p.inputValue h]

theorem sendMessage_blank_noop_witness :
    sendMessage
        { log := [⟨"msg-1-2".toList, "message user".toList, "<p>hi</p>".toList⟩],
          inputValue := " \t\n ".toList, kw_lang := some "fr".toList, requests := [],
                    appended := [] }
        (fun _ => (5, 7)) .networkError
      = { page :=
            { log := [⟨"msg-1-2".toList, "message user".toList, "<p>hi</p>".toList⟩],
              inputValue := " \t\n ".toList, kw_lang := some "fr".toList, requests := [],
                    appended := [] },
          settled := .resolved } :=
  sendMessage_blank_noop _ _ _ (by decide)

theorem shownError_falsy (v : JsVal) (h : truthy v = false) : shownError v = genericError := by
  cases v with
  | str s =>
    cases s with
    | nil => rfl
    | cons c cs => simp [truthy] at h
  | _ => rfl

theorem escapeHtmlJs_error (error : JsVal) (herr : truthy error = false ∨ ∃ e, error = .str e) :
    escapeHtmlJs (if truthy error then error else .str genericError)
      = .ok (escapeHtml (shownError error)) := by
  by_cases ht : truthy error = true
  · rw [if_pos ht]
    rcases herr with h | ⟨e, rfl⟩
    · rw [h] at ht; cases ht
    · cases e with
      | nil => simp [truthy] at ht
      | cons c cs => rfl
  · rw [if_neg ht]
    have hf : truthy error = false := by simpa using ht
    rw [shownError_falsy error hf]
    rfl

theorem thinkingOf_activeBundle_some (lang : Str) (h : lang ∉ objectPrototypeKeys) :
    ∃ text, thinkingOf (activeBundle lang) = .str text := by
  unfold activeBundle I18N_get
  cases hl : I18N.lookup lang with
  | none => simp only [h, if_false]; exact ⟨_, rfl⟩
  | some b =>
    simp only []
    simp only [I18N, List.lookup] at hl
    split at hl
    · cases hl; exact ⟨_, rfl⟩
    · split at hl
      · cases hl; exact ⟨_, rfl⟩
      · split at hl
        · cases hl; exact ⟨_, rfl⟩
        · split at hl
          · cases hl; exact ⟨_, rfl⟩
          · cases hl

theorem thinkingOf_activeBundle (lang : Str) (h : lang ∉ objectPrototypeKeys) :
    thinkingOf (activeBundle lang) = .str (thinkingText lang) := by
  obtain ⟨text, ht⟩ := thinkingOf_activeBundle_some lang h
  simp only [thinkingText, ht]

/-- C3, as stated, fails at the response with a non-2xx status and body
`{ "ok": false, "error": "" }`: the field `error` is there and its escaped
value is the empty text, yet the assistant entry shows the fallback. -/
theorem sendMessage_error_reply_as_stated_fails :
    (sendMessage { log := [], inputValue := "hi".toList, kw_lang := none, requests := [],
                    appended := [] }
        (fun k => (5, Fin.ofNat k))
        (.response false (some (.value (.bool false) (.str []) .undefined)))).page.log
      = [⟨"msg-5-0".toList, "message user".toList, "<p>hi</p>".toList⟩,
         ⟨"msg-5-2".toList, "message assistant".toList, "<p>Something went wrong.</p>".toList⟩] ∧
    "<p>Something went wrong.</p>".toList
      ≠ "<p>".toList ++ formatText (escapeHtml []) ++ "</p>".toList := by
  decide

/-- C3, amended: a response arrives whose body is JSON other than `null`,
with a non-2xx status or a falsy `ok`, and whose `error` is a string or falsy;
the language code names no member of `Object.prototype` and the identifier of
the loading entry is borne by no earlier entry.  Then `sendMessage` resolves,
and the log is the prior log, the user entry and one assistant entry, the one
`addMessage` makes of the escaped `error` when that is a non-empty string and
of the fallback `Something went wrong.` otherwise; the loading entry is gone.
The result does not depend on the body's `ok` when the status is non-2xx. -/
theorem sendMessage_error_reply (p : Page) (ticks : Nat → Nat × Fin 10000)
    (resOk : Bool) (ok error reply : JsVal)
    (hmsg : trim p.inputValue ≠ [])
    (hlang : getLang p ∉ objectPrototypeKeys)
    (hfail : resOk = false ∨ truthy ok = false)
    (herr : truthy error = false ∨ ∃ e, error = .str e)
    (hprior : ∀ x ∈ p.log, x.id ≠ newId (ticks 1).1 (ticks 1).2)
    (huser : newId (ticks 0).1 (ticks 0).2 ≠ newId (ticks 1).1 (ticks 1).2) :
    sendMessage p ticks (.response resOk (some (.value ok error reply))) =
      { page :=
          { log := p.log ++
              [⟨newId (ticks 0).1 (ticks 0).2, "message user".toList,
                "<p>".toList ++ formatText (escapeHtml (trim p.inputValue)) ++ "</p>".toList⟩,
               ⟨newId (ticks 2).1 (ticks 2).2, "message assistant".toList,
                "<p>".toList ++ formatText (escapeHtml (shownError error)) ++ "</p>".toList⟩],
            inputValue := [],
            kw_lang := p.kw_lang,
            requests := p.requests ++ [⟨trim p.inputValue, getLang p⟩],
            appended := p.appended ++
              [⟨newId (ticks 0).1 (ticks 0).2, "message user".toList,
                "<p>".toList ++ formatText (escapeHtml (trim p.inputValue)) ++ "</p>".toList⟩,
               ⟨newId (ticks 1).1 (ticks 1).2, "message loading".toList,
                "<p>".toList ++ formatText (thinkingText (getLang p)) ++ "</p>".toList⟩,
               ⟨newId (ticks 2).1 (ticks 2).2, "message assistant".toList,
                "<p>".toList ++ formatText (escapeHtml (shownError error)) ++ "</p>".toList⟩] },
        settled := .resolved } := by
  have ht := thinkingOf_activeBundle _ hlang
  have hrm := removeById_append_fresh (newId (ticks 1).1 (ticks 1).2)
    ("message ".toList ++ "loading".toList)
    ("<p>".toList ++ formatText (thinkingText (getLang p)) ++ "</p>".toList)
    (p.log ++ [⟨newId (ticks 0).1 (ticks 0).2, "message ".toList ++ "user".toList,
          "<p>".toList ++ formatText (escapeHtml (trim p.inputValue)) ++ "</p>".toList⟩])
    (by
      intro x hx
      rw [List.mem_append] at hx
      rcases hx with hx | hx
      · exact hprior x hx
      · rw [List.mem_singleton] at hx; subst hx; exact huser)
  have hbr : (!resOk || !truthy ok) = true := by
    rcases hfail with h | h <;> rw [h] <;> simp
  have hesc := escapeHtmlJs_error error herr
  unfold sendMessage
  simp only [hmsg, if_false, addMessage, ht, Bool.false_eq_true]
  rw [hrm]
  simp only [afterRemoval, hbr, if_true, hesc, addMessage, Bool.false_eq_true, if_false,
    List.drop_left]
  simp only [List.append_assoc, List.singleton_append]
  rfl

theorem sendMessage_error_reply_witness :
    sendMessage { log := [], inputValue := " hi".toList, kw_lang := some "fr".toList, requests := [],
                    appended := [] }
        (fun k => (5, Fin.ofNat k))
        (.response false (some (.value (.bool true) (.str "Unknown <street>".toList) .undefined)))
      = { page :=
            { log := [⟨"msg-5-0".toList, "message user".toList, "<p>hi</p>".toList⟩,
                      ⟨"msg-5-2".toList, "message assistant".toList,
                       "<p>Unknown &lt;street&gt;</p>".toList⟩],
              inputValue := [], kw_lang := some "fr".toList,
              requests := [⟨"hi".toList, "fr".toList⟩],
              appended := [⟨"msg-5-0".toList, "message user".toList, "<p>hi</p>".toList⟩,
                           ⟨"msg-5-1".toList, "message loading".toList,
                            "<p>Réflexion...</p>".toList⟩,
                           ⟨"msg-5-2".toList, "message assistant".toList,
                            "<p>Unknown &lt;street&gt;</p>".toList⟩] },
          settled := .resolved } := by
  rw [sendMessage_error_reply _ _ _ _ _ _ (by decide) (by decide) (Or.inl rfl)
    (Or.inr ⟨_, rfl⟩) (by decide) (by decide)]
  decide

/-- With a loading identifier that no earlier entry bears, a network failure
ends with the prior log, the user entry and the apology. -/
theorem sendMessage_networkError_fresh (p : Page) (ticks : Nat → Nat × Fin 10000)
    (hmsg : trim p.inputValue ≠ [])
    (hlang : getLang p ∉ objectPrototypeKeys)
    (hprior : ∀ x ∈ p.log, x.id ≠ newId (ticks 1).1 (ticks 1).2)
    (huser : newId (ticks 0).1 (ticks 0).2 ≠ newId (ticks 1).1 (ticks 1).2) :
    sendMessage p ticks .networkError =
      { page :=
          { log := p.log ++
              [⟨newId (ticks 0).1 (ticks 0).2, "message user".toList,
                "<p>".toList ++ formatText (escapeHtml (trim p.inputValue)) ++ "</p>".toList⟩,
               ⟨newId (ticks 2).1 (ticks 2).2, "message assistant".toList,
                "<p>".toList ++ apology ++ "</p>".toList⟩],
            inputValue := [],
            kw_lang := p.kw_lang,
            requests := p.requests ++ [⟨trim p.inputValue, getLang p⟩],
            appended := p.appended ++
              [⟨newId (ticks 0).1 (ticks 0).2, "message user".toList,
                "<p>".toList ++ formatText (escapeHtml (trim p.inputValue)) ++ "</p>".toList⟩,
               ⟨newId (ticks 1).1 (ticks 1).2, "message loading".toList,
                "<p>".toList ++ formatText (thinkingText (getLang p)) ++ "</p>".toList⟩,
               ⟨newId (ticks 2).1 (ticks 2).2, "message assistant".toList,
                "<p>".toList ++ apology ++ "</p>".toList⟩] },
        settled := .resolved } := by
  have ht := thinkingOf_activeBundle _ hlang
  have hrm := removeById_append_fresh (newId (ticks 1).1 (ticks 1).2)
    ("message ".toList ++ "loading".toList)
    ("<p>".toList ++ formatText (thinkingText (getLang p)) ++ "</p>".toList)
    (p.log ++ [⟨newId (ticks 0).1 (ticks 0).2, "message ".toList ++ "user".toList,
          "<p>".toList ++ formatText (escapeHtml (trim p.inputValue)) ++ "</p>".toList⟩])
    (by
      intro x hx
      rw [List.mem_append] at hx
      rcases hx with hx | hx
      · exact hprior x hx
      · rw [List.mem_singleton] at hx; subst hx; exact huser)
  have hap : formatText apology = apology := by decide
  unfold sendMessage
  simp only [hmsg, if_false, addMessage, ht, Bool.false_eq_true, catchBlock]
  rw [hrm]
  simp only [hap, List.drop_left]
  simp only [List.append_assoc, List.singleton_append]
  rfl

/-- With a loading identifier that no earlier entry bears, a successful
response ends with the prior log, the user entry, and an assistant entry
whose markup is the reply between `<p>` and `</p>`. -/
theorem sendMessage_reply_fresh (p : Page) (ticks : Nat → Nat × Fin 10000)
    (ok error : JsVal) (r : Str)
    (hmsg : trim p.inputValue ≠ [])
    (hlang : getLang p ∉ objectPrototypeKeys)
    (hok : truthy ok = true)
    (hprior : ∀ x ∈ p.log, x.id ≠ newId (ticks 1).1 (ticks 1).2)
    (huser : newId (ticks 0).1 (ticks 0).2 ≠ newId (ticks 1).1 (ticks 1).2) :
    sendMessage p ticks (.response true (some (.value ok error (.str r)))) =
      { page :=
          { log := p.log ++
              [⟨newId (ticks 0).1 (ticks 0).2, "message user".toList,
                "<p>".toList ++ formatText (escapeHtml (trim p.inputValue)) ++ "</p>".toList⟩,
               ⟨newId (ticks 2).1 (ticks 2).2, "message assistant".toList,
                "<p>".toList ++ r ++ "</p>".toList⟩],
            inputValue := [],
            kw_lang := p.kw_lang,
            requests := p.requests ++ [⟨trim p.inputValue, getLang p⟩],
            appended := p.appended ++
              [⟨newId (ticks 0).1 (ticks 0).2, "message user".toList,
                "<p>".toList ++ formatText (escapeHtml (trim p.inputValue)) ++ "</p>".toList⟩,
               ⟨newId (ticks 1).1 (ticks 1).2, "message loading".toList,
                "<p>".toList ++ formatText (thinkingText (getLang p)) ++ "</p>".toList⟩,
               ⟨newId (ticks 2).1 (ticks 2).2, "message assistant".toList,
                "<p>".toList ++ r ++ "</p>".toList⟩] },
        settled := .resolved } := by
  have ht := thinkingOf_activeBundle _ hlang
  have hrm := removeById_append_fresh (newId (ticks 1).1 (ticks 1).2)
    ("message ".toList ++ "loading".toList)
    ("<p>".toList ++ formatText (thinkingText (getLang p)) ++ "</p>".toList)
    (p.log ++ [⟨newId (ticks 0).1 (ticks 0).2, "message ".toList ++ "user".toList,
          "<p>".toList ++ formatText (escapeHtml (trim p.inputValue)) ++ "</p>".toList⟩])
    (by
      intro x hx
      rw [List.mem_append] at hx
      rcases hx with hx | hx
      · exact hprior x hx
      · rw [List.mem_singleton] at hx; subst hx; exact huser)
  have hbr : (!true || !truthy ok) = false := by rw [hok]; rfl
  unfold sendMessage
  simp only [hmsg, if_false, addMessage, ht, Bool.false_eq_true]
  rw [hrm]
  simp only [afterRemoval, hbr, Bool.false_eq_true, if_false, addMessage, if_true, toStringJs,
    List.drop_left]
  simp only [List.append_assoc, List.singleton_append]
  rfl

theorem catchBlock_appended (p : Page) (id : Str) (tick : Nat × Fin 10000) :
    ∃ rest, (catchBlock p id tick).page.appended = p.appended ++ rest ∧
      ∀ e ∈ rest, e.className = "message ".toList ++ "assistant".toList := by
  unfold catchBlock
  cases removeById id p.log with
  | none => exact ⟨[], by simp, by simp⟩
  | some log =>
    simp only [addMessage, Bool.false_eq_true, if_false, List.drop_left]
    exact ⟨_, rfl, fun e he => by rw [List.mem_singleton] at he; subst he; rfl⟩

theorem afterRemoval_appended (p : Page) (id : Str) (ticks : Nat → Nat × Fin 10000)
    (resOk : Bool) (data : Body) :
    ∃ rest, (afterRemoval p id ticks resOk data).page.appended = p.appended ++ rest ∧
      ∀ e ∈ rest, e.className = "message ".toList ++ "assistant".toList := by
  unfold afterRemoval
  cases data with
  | null => exact catchBlock_appended p id _
  | value ok error reply =>
    simp only []
    split
    · cases escapeHtmlJs (if truthy error = true then error else JsVal.str genericError) with
      | error e => exact catchBlock_appended p id _
      | ok text =>
        simp only [addMessage, Bool.false_eq_true, if_false, List.drop_left]
        exact ⟨_, rfl, fun e he => by rw [List.mem_singleton] at he; subst he; rfl⟩
    · simp only [addMessage, if_true]
      cases toStringJs reply with
      | error e => exact catchBlock_appended p id _
      | ok html =>
        simp only [List.drop_left]
        exact ⟨_, rfl, fun e he => by rw [List.mem_singleton] at he; subst he; rfl⟩

/-- C1: for every page, clock values, random draws and outcome of the
request, when the trimmed input `s` is not empty the first entry `sendMessage`
appends is the user entry, of class `message user` and markup `<p>`, the
formatted escaped text, `</p>`, and nothing else it appends is a user entry.
The escaped text holds no `<`, `>`, `"` or `'`, so none of the input gets
through raw; the formatted text is made of the tags `<strong>`, `</strong>`,
`<br>`, the five entities and characters other than `<`, `>`, `&`: wherever it
has a `<` one of the three tags starts, wherever it has a `>` one of them
ends, and wherever it has a `&` one of the five entities starts.  For
`hello **world**\nline2` the formatted text is
`hello <strong>world</strong><br>line2`. -/
theorem userEntry_markup_harmless (p : Page) (ticks : Nat → Nat × Fin 10000)
    (outcome : FetchOutcome) (h : trim p.inputValue ≠ []) :
    (∃ rest, (sendMessage p ticks outcome).page.appended
        = p.appended ++
            ⟨newId (ticks 0).1 (ticks 0).2, "message user".toList,
             "<p>".toList ++ formatText (escapeHtml (trim p.inputValue)) ++ "</p>".toList⟩ :: rest ∧
      ∀ e ∈ rest, e.className ≠ "message user".toList) ∧
    (∀ c ∈ escapeHtml (trim p.inputValue), c ≠ '<' ∧ c ≠ '>' ∧ c ≠ '"' ∧ c ≠ '\'') ∧
    Harmless (formatText (escapeHtml (trim p.inputValue))) ∧
    (∀ pre post : Str, formatText (escapeHtml (trim p.inputValue)) = pre ++ '<' :: post →
      ∃ t ∈ markupTags, t <+: '<' :: post) ∧
    (∀ pre post : Str, formatText (escapeHtml (trim p.inputValue)) = pre ++ '>' :: post →
      ∃ t ∈ markupTags, t <:+ pre ++ ['>']) ∧
    (∀ pre post : Str, formatText (escapeHtml (trim p.inputValue)) = pre ++ '&' :: post →
      ∃ e ∈ entityNames, e <+: '&' :: post) ∧
    formatText (escapeHtml (trim "hello **world**\nline2".toList))
      = "hello <strong>world</strong><br>line2".toList := by
  have hh : Harmless (formatText (escapeHtml (trim p.inputValue))) :=
    harmless_of_weave_escapeHtml _ _ (weave_formatText _)
  refine ⟨?_, escapeHtml_no_raw _, hh, fun pre post e => lt_starts_tag _ hh pre post e,
    fun pre post e => gt_ends_tag _ hh pre post e,
    fun pre post e => amp_starts_entity _ hh pre post e, by decide⟩
  have hasst : ∀ e : Entry, e.className = "message ".toList ++ "assistant".toList →
      e.className ≠ "message user".toList := by
    intro e he; rw [he]; decide
  have hfin : ∀ (q : Page) (r : Run) (u l : Entry),
      q.appended = p.appended ++ [u] ++ [l] →
      l.className = "message ".toList ++ "loading".toList →
      (∃ rest, r.page.appended = q.appended ++ rest ∧
        ∀ e ∈ rest, e.className = "message ".toList ++ "assistant".toList) →
      ∃ rest, r.page.appended = p.appended ++ u :: rest ∧
        ∀ e ∈ rest, e.className ≠ "message user".toList := by
    intro q r u l hq hl ⟨rest, hr, hc⟩
    refine ⟨l :: rest, by rw [hr, hq]; simp, ?_⟩
    intro e he
    rcases List.mem_cons.mp he with rfl | he
    · rw [hl]; decide
    · exact hasst e (hc e he)
  unfold sendMessage
  simp only [h, if_false, addMessage, Bool.false_eq_true, List.drop_left]
  cases thinkingOf (activeBundle (getLang p)) with
  | str text =>
    simp only [List.drop_left]
    cases outcome with
    | networkError => exact hfin _ _ _ _ rfl rfl (catchBlock_appended _ _ _)
    | response resOk body =>
      cases body with
      | none => exact hfin _ _ _ _ rfl rfl (catchBlock_appended _ _ _)
      | some data =>
        simp only []
        split
        · exact hfin _ _ _ _ rfl rfl (catchBlock_appended _ _ _)
        · exact hfin _ _ _ _ rfl rfl (afterRemoval_appended _ _ _ _ _)
  | undefined => exact ⟨[], rfl, by simp⟩
  | null => exact ⟨[], rfl, by simp⟩
  | bool b => exact ⟨[], rfl, by simp⟩
  | num n => exact ⟨[], rfl, by simp⟩
  | object shown => exact ⟨[], rfl, by simp⟩

theorem userEntry_markup_harmless_witness :
    ∃ rest,
      (sendMessage { log := [], inputValue := " hello **world**\nline2 ".toList, kw_lang := none,
                     requests := [], appended := [] }
          (fun k => (5, Fin.ofNat k))
          (.response true (some (.value (.bool true) .undefined (.str "Tuesday".toList))))).page.appended
        = [] ++ (⟨"msg-5-0".toList, "message user".toList,
             "<p>hello <strong>world</strong><br>line2</p>".toList⟩ : Entry) :: rest ∧
      ∀ e ∈ rest, e.className ≠ "message user".toList :=
  (userEntry_markup_harmless _ _ _ (by decide)).1

/-- C7, at the failing input: input `hi`, a response with status 200 whose
body is the JSON value `null`.  The loading entry is removed, the read
`data.ok` throws, the `catch` block finds no element under the loading
identifier and throws again: the promise rejects, and no assistant entry is
shown. -/
theorem sendMessage_null_body_rejects :
    sendMessage { log := [], inputValue := "hi".toList, kw_lang := none, requests := [],
                    appended := [] }
        (fun k => (5, Fin.ofNat k)) (.response true (some .null))
      = { page := { log := [⟨"msg-5-0".toList, "message user".toList, "<p>hi</p>".toList⟩],
                    inputValue := [], kw_lang := none,
                    requests := [⟨"hi".toList, "en".toList⟩],
                    appended := [⟨"msg-5-0".toList, "message user".toList, "<p>hi</p>".toList⟩,
                                 ⟨"msg-5-1".toList, "message loading".toList,
                                  "<p>Thinking...</p>".toList⟩] },
          settled := .rejected } := by
  decide

/-- C5, at the failing input: input `hi` on an empty log, both calls of
`addMessage` at clock 5 with random draw 7, the request failing at the
network level.  The loading entry gets the identifier of the user entry, the
`catch` block removes the user entry in its place, and the log ends as the
loading entry followed by the apology. -/
theorem sendMessage_networkError_collision :
    (sendMessage { log := [], inputValue := "hi".toList, kw_lang := none, requests := [],
                    appended := [] }
        (fun k => if k < 2 then (5, 7) else (9, 3)) .networkError).page.log
      = [⟨"msg-5-7".toList, "message loading".toList, "<p>Thinking...</p>".toList⟩,
         ⟨"msg-9-3".toList, "message assistant".toList,
          "<p>Sorry — I couldn't reach the server. Is the backend running?</p>".toList⟩] := by
  decide

/-- C4, at the failing input: input `hi` on an empty log, both calls of
`addMessage` at clock 5 with random draw 7, a response with status 200 and
body `{ "ok": true, "reply": "<p>Tuesday</p>" }`.  The loading entry gets the
identifier of the user entry, the user entry is removed in its place, and the
loading entry stays in the log before the reply. -/
theorem sendMessage_reply_collision :
    (sendMessage { log := [], inputValue := "hi".toList, kw_lang := none, requests := [],
                    appended := [] }
        (fun k => if k < 2 then (5, 7) else (9, 3))
        (.response true (some (.value (.bool true) .undefined (.str "<p>Tuesday</p>".toList))))).page.log
      = [⟨"msg-5-7".toList, "message loading".toList, "<p>Thinking...</p>".toList⟩,
         ⟨"msg-9-3".toList, "message assistant".toList, "<p><p>Tuesday</p></p>".toList⟩] := by
  decide

end KingstonWaste
